import Mathlib

/-!
Verification development for the ZotTablet repository (Zotero plugin that
syncs PDF attachments with an external "tablet" folder).

The JavaScript source is shallowly embedded: paths and note blobs are lists
of characters, the filesystem is a partial map from paths to modification
times, the host store (tags, notes) is explicit record state, and every
fallible JS operation is an Except/Option value.  Definitions are translated
from the source files (src/content/ui.js, src/content/constants.js and the
unnamed main module src/unnamed/part_002); definitions whose name starts
with claim- follow the specification text instead, for refinement
comparisons.
-/

namespace ZotTablet

/-- Paths and raw strings are modelled as lists of characters
(JS strings are sequences of code units). -/
abbrev Path := List Char

/-! ## JS string primitives used by the sync code -/

/-- JS String.prototype.replace with a plain-string pattern: replace the
first occurrence of pat by rep, leaving the string unchanged when pat does
not occur (an empty pattern matches at index 0, as in JS).  Dollar-sign
replacement patterns are not used by the repository and are not modelled.
Used at ui.js:1449 (sendToTablet) and ui.js:1259 (getTabletInfo). -/
def replaceFirst (pat rep : Path) : Path → Path
  | [] => if pat.isPrefixOf ([] : Path) then rep else []
  | c :: rest =>
    if pat.isPrefixOf (c :: rest) then rep ++ (c :: rest).drop pat.length
    else c :: replaceFirst pat rep rest

/-- ui.js:1258 destDir.replace of the trailing-separator regex by the empty
string: drop the maximal trailing run of slash/backslash characters. -/
def stripTrailingSeps (s : Path) : Path :=
  (s.reverse.dropWhile (fun c => c == '/' || c == '\\')).reverse

/-- The separator-run collapse performed by the Zotero-7 fallback branch of
ZT.joinPath (part_002:456): each maximal run of the separator becomes a
single separator.  The non-Windows separator is used throughout. -/
def collapseSep : Path → Path
  | a :: b :: rest =>
    if a = '/' ∧ b = '/' then collapseSep (b :: rest)
    else a :: collapseSep (b :: rest)
  | s => s

/-- Join a list of nonempty parts with the separator (Array.prototype.join). -/
def joinSep : List Path → Path
  | [] => []
  | [p] => p
  | p :: q :: rest => p ++ '/' :: joinSep (q :: rest)

/-- ZT.joinPath (part_002:447-457), Zotero-7 fallback branch with the
non-Windows separator: drop empty components, join with the separator and
collapse separator runs.  (The Zotero-8 branch delegates to the external
PathUtils.join host API and is outside the repository.) -/
def joinPath (parts : List Path) : Path :=
  collapseSep (joinSep (parts.filter (fun p => !p.isEmpty)))

/-- No two adjacent separator characters occur (paths in normal form, on
which collapseSep is the identity). -/
def noDoubleSep : Path → Bool
  | a :: b :: rest => !(a == '/' && b == '/') && noDoubleSep (b :: rest)
  | _ => true

/-- ZT.getFileExtension (part_002:439-442): empty when no dot occurs,
otherwise the lower-cased substring after the last dot. -/
def getFileExtension (p : Path) : Path :=
  if '.' ∈ p then ((p.reverse.takeWhile (fun c => c != '.')).reverse).map Char.toLower
  else []

/-- The base part used by the collision loops of ZT.copyFile / ZT.moveFile:
destPath.substring(0, destPath.length - ext.length - 1). -/
def baseOf (p : Path) : Path :=
  p.take (p.length - (getFileExtension p).length - 1)

/-! ## Filesystem model

The filesystem is a partial map from paths to integer modification times;
none means the path does not exist (so that stat on it throws in the JS
source and is caught).  File contents are not modelled: none of the claims
under verification mentions them. -/

/-- Filesystem state: mtime of each existing path. -/
abbrev FS := Path → Option Int

/-- ZT.fileExists (part_002:482-487). -/
def fileExists (fs : FS) (p : Path) : Bool :=
  (fs p).isSome

/-- ZT.getFileModTime (part_002:580-591): the stat result, with any stat
failure (in this model: a missing path) caught and turned into 0. -/
def getFileModTime (fs : FS) (p : Path) : Int :=
  match fs p with
  | some t => t
  | none => 0

/-! ## Collision-safe naming (ZT.copyFile / ZT.moveFile, part_002:504-565)

ZT.copyFile with overwrite=false and ZT.moveFile run the identical
while-loop searching for a free destination path; the loop is modelled once.
The constant below is Constants.LIMITS.MAX_RENAME_COUNTER. -/

def MAX_RENAME_COUNTER : Nat := 999

/-- The candidate built inside the loop: base ++ "_" ++ counter ++ "." ++ ext. -/
def renameCandidate (base ext : Path) (k : Nat) : Path :=
  base ++ '_' :: (Nat.repr k).data ++ '.' :: ext

/-- The collision while-loop shared by ZT.copyFile (overwrite=false) and
ZT.moveFile.  While the current candidate exists, the next candidate is
built from the counter, the counter is incremented and the loop throws
(error) once the counter exceeds MAX_RENAME_COUNTER.  The fuel argument
makes the recursion structural; every use supplies fuel larger than the
number of iterations the counter cap permits, so the fuel-exhaustion
branch is unreachable. -/
def collisionLoop (ex : Path → Bool) (base ext : Path) :
    Nat → Path → Nat → Except Unit Path
  | 0, _, _ => .error ()
  | fuel + 1, finalPath, counter =>
    if ex finalPath then
      let fp := renameCandidate base ext counter
      let c := counter + 1
      if MAX_RENAME_COUNTER < c then .error ()
      else collisionLoop ex base ext fuel fp c
    else .ok finalPath

/-- ZT.copyFile with overwrite=false (and equally ZT.moveFile): the final
path chosen for a write to destPath given the existence predicate ex.
Errors model the thrown too-many-collisions exception; the source performs
the actual copy only after this loop returns, so on error nothing is
written. -/
def copyFile (ex : Path → Bool) (destPath : Path) : Except Unit Path :=
  collisionLoop ex (baseOf destPath) (getFileExtension destPath) 1000 destPath 2

/-- First element of the candidate list that does not exist (error when all
exist).  Reference predicate used to characterise the loop. -/
def firstFree (ex : Path → Bool) : List Path → Except Unit Path
  | [] => .error ()
  | p :: rest => if ex p then firstFree ex rest else .ok p

/-- The candidates the source loop actually subjects to an existence check:
destPath and the suffixed names _2 .. _998.  (The _999 candidate is built
by the loop but the counter cap aborts before its existence check.) -/
def codeCandidates (destPath : Path) : List Path :=
  destPath ::
    (List.range 997).map
      (fun i => renameCandidate (baseOf destPath) (getFileExtension destPath) (2 + i))

/-- Modelled from the spec: the candidate list the claim describes, where
every suffix whose counter does not exceed 999 — that is _2 .. _999 — may be
chosen.  Kept for the refinement comparison with codeCandidates. -/
def claimCandidates (destPath : Path) : List Path :=
  destPath ::
    (List.range 998).map
      (fun i => renameCandidate (baseOf destPath) (getFileExtension destPath) (2 + i))

/-- Modelled from the spec: collision policy as the claim states it. -/
def claimCopyFile (ex : Path → Bool) (destPath : Path) : Except Unit Path :=
  firstFree ex (claimCandidates destPath)

/-! ### Lemmas about the collision loop -/

theorem firstFree_ok_not_exists (ex : Path → Bool) :
    ∀ l r, firstFree ex l = .ok r → ex r = false := by
  intro l
  induction l with
  | nil => intro r h; simp [firstFree] at h
  | cons p rest ih =>
    intro r h
    by_cases hp : ex p = true
    · exact ih r (by simpa [firstFree, hp] using h)
    · simp only [firstFree, hp, Bool.false_eq_true, if_false] at h
      cases h
      simpa using hp

theorem collisionLoop_eq_firstFree (ex : Path → Bool) (base ext : Path) :
    ∀ fuel c fp, c ≤ 999 → 999 - c < fuel →
      collisionLoop ex base ext fuel fp c =
        firstFree ex
          (fp :: (List.range (999 - c)).map (fun i => renameCandidate base ext (c + i))) := by
  intro fuel
  induction fuel with
  | zero => intro c fp _ hlt; omega
  | succ fuel ih =>
    intro c fp hc hlt
    by_cases hex : ex fp = true
    · simp only [collisionLoop, hex, if_true]
      by_cases hcap : MAX_RENAME_COUNTER < c + 1
      · have hc999 : c = 999 := by
          simp [MAX_RENAME_COUNTER] at hcap; omega
        subst hc999
        rw [if_pos hcap]
        simp [firstFree, hex]
      · have hc998 : c + 1 ≤ 999 := by
          simp [MAX_RENAME_COUNTER] at hcap; omega
        simp only [hcap, if_false]
        rw [ih (c + 1) (renameCandidate base ext c) hc998 (by omega)]
        have hn : 999 - c = (999 - (c + 1)) + 1 := by omega
        rw [hn, List.range_succ_eq_map]
        simp only [List.map_cons, List.map_map, Nat.add_zero]
        have hfun :
            ((fun i => renameCandidate base ext (c + i)) ∘ Nat.succ) =
              (fun i => renameCandidate base ext (c + 1 + i)) := by
          funext i
          simp only [Function.comp_apply]
          congr 1
          omega
        rw [hfun]
        simp [firstFree, hex]
    · have hex' : ex fp = false := by simpa using hex
      simp [collisionLoop, firstFree, hex']

/-- **C4 (amended).**  The collision policy of ZT.copyFile / ZT.moveFile:
the final written path is the first of destPath, base_2 … base_998 whose
path does not exist, and the operation fails with the too-many-collisions
error when all of those exist (the _999 candidate is generated but the
counter cap aborts before its existence check, so it is never used);
consequently an ok result never collides with an existing path, and two
distinct files sent to the same rendered destination name end at two
distinct stored paths. -/
theorem copyFile_collision_policy (ex : Path → Bool) (destPath : Path) :
    copyFile ex destPath = firstFree ex (codeCandidates destPath)
    ∧ (∀ r, copyFile ex destPath = .ok r → ex r = false)
    ∧ (∀ r₁ r₂, copyFile ex destPath = .ok r₁ →
        copyFile (fun p => p == r₁ || ex p) destPath = .ok r₂ → r₂ ≠ r₁) := by
  have hmain : copyFile ex destPath = firstFree ex (codeCandidates destPath) := by
    unfold copyFile codeCandidates
    rw [collisionLoop_eq_firstFree ex _ _ 1000 2 destPath (by omega) (by omega)]
  refine ⟨hmain, ?_, ?_⟩
  · intro r h
    exact firstFree_ok_not_exists ex _ r (hmain ▸ h)
  · intro r₁ r₂ _ h₂ hcontra
    have hmain₂ :
        copyFile (fun p => p == r₁ || ex p) destPath =
          firstFree (fun p => p == r₁ || ex p) (codeCandidates destPath) := by
      unfold copyFile codeCandidates
      rw [collisionLoop_eq_firstFree _ _ _ 1000 2 destPath (by omega) (by omega)]
    have hfree := firstFree_ok_not_exists (fun p => p == r₁ || ex p) _ r₂ (hmain₂ ▸ h₂)
    simp only [hcontra] at hfree
    simp at hfree

/-- Witness for C4's theorem at a concrete input: with only /d/f.pdf
existing, the copy lands at /d/f_2.pdf and the two stored paths differ. -/
theorem copyFile_collision_policy_witness :
    (fun p => p == ("/d/f.pdf".data : Path)) "/d/f_2.pdf".data = false ∧
    ("/d/f_2.pdf".data : Path) ≠ "/d/f.pdf".data := by
  constructor
  · exact (copyFile_collision_policy (fun p => p == "/d/f.pdf".data)
      "/d/f.pdf".data).2.1 "/d/f_2.pdf".data rfl
  · exact (copyFile_collision_policy (fun _ => false) "/d/f.pdf".data).2.2
      "/d/f.pdf".data "/d/f_2.pdf".data rfl rfl

/-- **C4 (counterexample).**  Existence predicate under which every path
except /d/f_999.pdf exists.  Against it the claim's policy (first free
suffix with counter up to 999) succeeds at _999, but the source loop throws
too-many-collisions: the cap fires after generating the _999 candidate and
before checking its existence. -/
def exAllBut999 : Path → Bool :=
  fun p => !(p == "/d/f_999.pdf".data)

set_option maxRecDepth 100000 in
theorem copyFile_cap_counterexample :
    copyFile exAllBut999 "/d/f.pdf".data = .error ()
    ∧ claimCopyFile exAllBut999 "/d/f.pdf".data = .ok "/d/f_999.pdf".data := by
  exact ⟨rfl, rfl⟩

/-! ## Base-folder placeholder substitution (C2)

Write side: sendToTablet stores
result.finalPath.replace(prefs.destDir, the placeholder) — ui.js:1449,
using the raw destDir preference.  Read side: getTabletInfo strips trailing
separators from the current destDir preference and substitutes it for the
placeholder — ui.js:1256-1259. -/

/-- The literal base-folder placeholder written into stored records. -/
def baseFolderTok : Path := "[BaseFolder]".data

/-- ui.js:1449 — the location field written into the sync record. -/
def storedLocation (destDirPref finalPath : Path) : Path :=
  replaceFirst destDirPref baseFolderTok finalPath

/-- ui.js:1256-1259 — the location field as getTabletInfo returns it. -/
def resolveLocation (destDirPref location : Path) : Path :=
  replaceFirst baseFolderTok (stripTrailingSeps destDirPref) location

theorem replaceFirst_append (pat rep t : Path) :
    replaceFirst pat rep (pat ++ t) = rep ++ t := by
  cases pat with
  | nil =>
    cases t with
    | nil => simp [replaceFirst]
    | cons c rest => simp [replaceFirst]
  | cons p ps =>
    have hpre : (p :: ps).isPrefixOf (p :: (ps ++ t)) = true := by
      have hshape : p :: (ps ++ t) = (p :: ps) ++ t := rfl
      rw [hshape]; simp
    show replaceFirst (p :: ps) rep (p :: (ps ++ t)) = rep ++ t
    rw [replaceFirst, if_pos hpre]
    simp [List.drop_left']

theorem collapseSep_eq_self : ∀ s : Path, noDoubleSep s = true → collapseSep s = s
  | [], _ => rfl
  | [_], _ => rfl
  | a :: b :: rest, h => by
    have hsplit : (!(a == '/' && b == '/')) = true ∧ noDoubleSep (b :: rest) = true := by
      simpa [noDoubleSep, Bool.and_eq_true] using h
    have h1 : ¬(a = '/' ∧ b = '/') := by
      intro hab
      simp [hab.1, hab.2] at hsplit
    rw [collapseSep, if_neg h1, collapseSep_eq_self (b :: rest) hsplit.2]

theorem noDoubleSep_join : ∀ a : Path, noDoubleSep a = true → a.getLast? ≠ some '/' →
    ∀ b : Path, noDoubleSep b = true → b.head? ≠ some '/' →
    noDoubleSep (a ++ '/' :: b) = true
  | [], _, _, b, hb, hbh => by
    cases b with
    | nil => rfl
    | cons c rest =>
      have hc : ¬ c = '/' := by
        intro hc; exact hbh (by simp [hc])
      show noDoubleSep ('/' :: c :: rest) = true
      simp [noDoubleSep, hc, hb]
  | [x], _, hl, b, hb, hbh => by
    have hx : ¬ x = '/' := by
      intro hc; exact hl (by simp [hc])
    have htail := noDoubleSep_join [] rfl (by simp) b hb hbh
    show noDoubleSep (x :: '/' :: b) = true
    simp only [noDoubleSep, Bool.and_eq_true]
    refine ⟨by simp [hx], by simpa using htail⟩
  | x :: y :: rest, h, hl, b, hb, hbh => by
    have hsplit : (!(x == '/' && y == '/')) = true ∧ noDoubleSep (y :: rest) = true := by
      simpa [noDoubleSep, Bool.and_eq_true] using h
    have hl' : (y :: rest).getLast? ≠ some '/' := by
      simpa [List.getLast?_cons_cons] using hl
    have ih := noDoubleSep_join (y :: rest) hsplit.2 hl' b hb hbh
    show noDoubleSep (x :: y :: (rest ++ '/' :: b)) = true
    simp only [noDoubleSep, Bool.and_eq_true]
    exact ⟨hsplit.1, ih⟩

theorem stripTrailingSeps_eq_self (s : Path)
    (h1 : s.getLast? ≠ some '/') (h2 : s.getLast? ≠ some '\\') :
    stripTrailingSeps s = s := by
  unfold stripTrailingSeps
  cases hrev : s.reverse with
  | nil =>
    have : s = [] := by simpa using congrArg List.reverse hrev
    simp [this, hrev]
  | cons c rest =>
    have hgl : s.getLast? = some c := by
      rw [← List.head?_reverse, hrev]; rfl
    have hc : (c == '/' || c == '\\') = false := by
      have hc1 : c ≠ '/' := by intro h; exact h1 (by rw [hgl, h])
      have hc2 : c ≠ '\\' := by intro h; exact h2 (by rw [hgl, h])
      simp [hc1, hc2]
    rw [List.dropWhile_cons, hc]
    simp only [Bool.false_eq_true, if_false]
    rw [← hrev, List.reverse_reverse]

theorem joinPath_pair (a b : Path) (ha : a ≠ []) (hb : b ≠ [])
    (hnd : noDoubleSep (a ++ '/' :: b) = true) :
    joinPath [a, b] = a ++ '/' :: b := by
  unfold joinPath
  have hfa : a.isEmpty = false := by simpa [List.isEmpty_iff] using ha
  have hfb : b.isEmpty = false := by simpa [List.isEmpty_iff] using hb
  have hfilter : [a, b].filter (fun p => !p.isEmpty) = [a, b] := by
    simp [List.filter, hfa, hfb]
  rw [hfilter]
  show collapseSep (a ++ '/' :: b) = a ++ '/' :: b
  exact collapseSep_eq_self _ hnd

/-- **C2 (amended).**  When the configured roots carry no trailing
separator and paths are in normal form (no doubled separators, relative
part not starting with a separator), the record written for a file sent
under root R1 stores the placeholder followed by the root-relative path,
and getTabletInfo read under a later root R2 resolves it to the same
relative path under R2.  (The unqualified claim fails when a root ends in
a separator: see the counterexample.) -/
theorem placeholder_relocation (R₁ R₂ rel : Path)
    (h₁ : R₁ ≠ []) (h₂ : rel ≠ []) (h₃ : R₂ ≠ [])
    (hnd₁ : noDoubleSep R₁ = true) (hndr : noDoubleSep rel = true)
    (hnd₂ : noDoubleSep R₂ = true)
    (hl₁ : R₁.getLast? ≠ some '/')
    (hl₂ : R₂.getLast? ≠ some '/') (hl₂b : R₂.getLast? ≠ some '\\')
    (hh : rel.head? ≠ some '/') :
    storedLocation R₁ (joinPath [R₁, rel]) = baseFolderTok ++ '/' :: rel
    ∧ resolveLocation R₂ (storedLocation R₁ (joinPath [R₁, rel])) = joinPath [R₂, rel] := by
  have hjoin₁ : joinPath [R₁, rel] = R₁ ++ '/' :: rel :=
    joinPath_pair R₁ rel h₁ h₂ (noDoubleSep_join R₁ hnd₁ hl₁ rel hndr hh)
  have hstored : storedLocation R₁ (joinPath [R₁, rel]) = baseFolderTok ++ '/' :: rel := by
    rw [hjoin₁]
    exact replaceFirst_append R₁ baseFolderTok ('/' :: rel)
  refine ⟨hstored, ?_⟩
  have hjoin₂ : joinPath [R₂, rel] = R₂ ++ '/' :: rel :=
    joinPath_pair R₂ rel h₃ h₂ (noDoubleSep_join R₂ hnd₂ hl₂ rel hndr hh)
  rw [hstored, hjoin₂]
  unfold resolveLocation
  rw [stripTrailingSeps_eq_self R₂ hl₂ hl₂b]
  exact replaceFirst_append baseFolderTok R₂ ('/' :: rel)

/-- Witness for C2's theorem: sending f.pdf under root /t and reading the
record back under relocated root /u resolves to /u/f.pdf. -/
theorem placeholder_relocation_witness :
    resolveLocation "/u".data (storedLocation "/t".data (joinPath ["/t".data, "f.pdf".data]))
      = joinPath ["/u".data, "f.pdf".data] :=
  (placeholder_relocation "/t".data "/u".data "f.pdf".data
    (by decide) (by decide) (by decide) (by decide) (by decide) (by decide)
    (by decide) (by decide) (by decide) (by decide)).2

/-- **C2 (counterexample).**  With the root configured as /t/ (trailing
separator) at send time, the stored location is the placeholder glued
directly to f.pdf; reading it under root /u resolves to /uf.pdf — not the
relative path f.pdf under /u — so retrieve does not locate the file.  The
claim's universally quantified relocation property fails. -/
theorem placeholder_relocation_counterexample :
    resolveLocation "/u".data (storedLocation "/t/".data (joinPath ["/t/".data, "f.pdf".data]))
      = "/uf.pdf".data
    ∧ resolveLocation "/u".data (storedLocation "/t/".data (joinPath ["/t/".data, "f.pdf".data]))
      ≠ joinPath ["/u".data, "f.pdf".data] := by
  exact ⟨rfl, by decide⟩

/-! ## Batch executor (ZT.processInBatches, part_002:224-256)

The processor is modelled as a pure function into Except: the error case is
a JS rejection/throw, caught by the try/catch inside the chunk map.  The
per-window Promise.all is deterministic here, so its results are collected
in window order exactly as the sequential for-loop of the source does.
The progress-callback invocations are logged as (completed, total) pairs. -/

/-- Accumulated state of one processInBatches run: successes, errors, the
progress-callback invocation log and the completed counter. -/
structure BatchState (α β ε : Type) where
  successes : List (α × β)
  errors : List (α × ε)
  progress : List (Nat × Nat)
  completed : Nat
deriving DecidableEq

/-- items.slice(i, i + concurrency) chunking performed by the outer
for-loop: the item list split into windows of (at most) n items. -/
def chunksOf (n : Nat) : List α → List (List α)
  | [] => []
  | a :: rest => (a :: rest.take (n - 1)) :: chunksOf n (rest.drop (n - 1))
termination_by l => l.length
decreasing_by
  simp only [List.length_drop, List.length_cons]
  omega

/-- Body of the inner for-loop over one window's results: increment the
completed counter, push the result onto successes or errors, and invoke
the progress callback with (completed, total). -/
def batchStep (total : Nat) (st : BatchState α β ε) (r : α × Except ε β) :
    BatchState α β ε :=
  match r.2 with
  | .ok b =>
    ⟨st.successes ++ [(r.1, b)], st.errors,
     st.progress ++ [(st.completed + 1, total)], st.completed + 1⟩
  | .error e =>
    ⟨st.successes, st.errors ++ [(r.1, e)],
     st.progress ++ [(st.completed + 1, total)], st.completed + 1⟩

/-- ZT.processInBatches: process the items window by window, each window's
items through the processor with the per-item try/catch, then collect the
window's results in order. -/
def processInBatches (proc : α → Except ε β) (concurrency : Nat)
    (items : List α) : BatchState α β ε :=
  (chunksOf concurrency items).foldl
    (fun st chunk => (chunk.map (fun a => (a, proc a))).foldl (batchStep items.length) st)
    ⟨[], [], [], 0⟩

/-- The success entry an item contributes, if any. -/
def okEntry (proc : α → Except ε β) (a : α) : Option (α × β) :=
  match proc a with
  | .ok b => some (a, b)
  | .error _ => none

/-- The error entry an item contributes, if any. -/
def errEntry (proc : α → Except ε β) (a : α) : Option (α × ε) :=
  match proc a with
  | .ok _ => none
  | .error e => some (a, e)

/-- Whether the processor succeeds on an item. -/
def procOk (proc : α → Except ε β) (a : α) : Bool :=
  match proc a with
  | .ok _ => true
  | .error _ => false

theorem foldl_batchStep (total : Nat) (proc : α → Except ε β) :
    ∀ (chunk : List α) (st : BatchState α β ε),
      (chunk.map (fun a => (a, proc a))).foldl (batchStep total) st =
        ⟨st.successes ++ chunk.filterMap (okEntry proc),
         st.errors ++ chunk.filterMap (errEntry proc),
         st.progress ++ (List.range' (st.completed + 1) chunk.length).map (fun j => (j, total)),
         st.completed + chunk.length⟩ := by
  intro chunk
  induction chunk with
  | nil => intro st; simp
  | cons a rest ih =>
    intro st
    simp only [List.map_cons, List.foldl_cons]
    rw [ih]
    cases hpa : proc a with
    | ok b =>
      simp [batchStep, hpa, okEntry, errEntry, List.range'_succ, Nat.add_assoc,
        Nat.add_comm 1 rest.length]
    | error e =>
      simp [batchStep, hpa, okEntry, errEntry, List.range'_succ, Nat.add_assoc,
        Nat.add_comm 1 rest.length]

theorem foldl_chunks (total : Nat) (proc : α → Except ε β) :
    ∀ (cs : List (List α)) (st : BatchState α β ε),
      cs.foldl
          (fun st chunk => (chunk.map (fun a => (a, proc a))).foldl (batchStep total) st) st =
        ⟨st.successes ++ cs.flatten.filterMap (okEntry proc),
         st.errors ++ cs.flatten.filterMap (errEntry proc),
         st.progress ++ (List.range' (st.completed + 1) cs.flatten.length).map (fun j => (j, total)),
         st.completed + cs.flatten.length⟩ := by
  intro cs
  induction cs with
  | nil => intro st; simp
  | cons c rest ih =>
    intro st
    simp only [List.foldl_cons]
    rw [foldl_batchStep, ih]
    simp only [List.flatten_cons, List.filterMap_append, List.length_append]
    simp only [BatchState.mk.injEq]
    refine ⟨?_, ?_, ?_, ?_⟩
    · simp [List.append_assoc]
    · simp [List.append_assoc]
    · rw [List.append_assoc]
      congr 1
      rw [← List.map_append]
      congr 1
      have harr : st.completed + c.length + 1 = st.completed + 1 + c.length := by omega
      rw [harr, List.range'_append_1]
      congr 1
      omega
    · omega

theorem flatten_chunksOf (n : Nat) (hn : 0 < n) :
    ∀ l : List α, (chunksOf n l).flatten = l
  | [] => by simp [chunksOf]
  | a :: rest => by
    rw [chunksOf]
    simp only [List.flatten_cons]
    rw [flatten_chunksOf n hn (rest.drop (n - 1))]
    simp [List.take_append_drop]
termination_by l => l.length
decreasing_by
  simp only [List.length_drop, List.length_cons]
  omega

theorem map_fst_filterMap_okEntry (proc : α → Except ε β) :
    ∀ l : List α, (l.filterMap (okEntry proc)).map Prod.fst = l.filter (procOk proc) := by
  intro l
  induction l with
  | nil => simp
  | cons a rest ih =>
    cases hpa : proc a with
    | ok b => simp [okEntry, procOk, hpa, List.filterMap_cons, ih]
    | error e => simp [okEntry, procOk, hpa, List.filterMap_cons, ih]

theorem map_fst_filterMap_errEntry (proc : α → Except ε β) :
    ∀ l : List α, (l.filterMap (errEntry proc)).map Prod.fst =
      l.filter (fun a => !procOk proc a) := by
  intro l
  induction l with
  | nil => simp
  | cons a rest ih =>
    cases hpa : proc a with
    | ok b => simp [errEntry, procOk, hpa, List.filterMap_cons, ih]
    | error e => simp [errEntry, procOk, hpa, List.filterMap_cons, ih]

/-- **C3.**  Contract of the batch executor: for every item list, processor
and positive concurrency, the successes are exactly the items the processor
accepts (with their results, in order), the errors are exactly the items on
which it throws (with the caught exceptions, in order) — so each input item
lands in exactly one of the two lists and one item's failure never prevents
another item, in the same or a later window, from being processed — and the
progress callback fires exactly once per item, with completed counts
1, 2, …, total. -/
theorem processInBatches_contract (proc : α → Except ε β) (concurrency : Nat)
    (items : List α) (hc : 0 < concurrency) :
    (processInBatches proc concurrency items).successes = items.filterMap (okEntry proc)
    ∧ (processInBatches proc concurrency items).errors = items.filterMap (errEntry proc)
    ∧ ((processInBatches proc concurrency items).successes.map Prod.fst ++
        (processInBatches proc concurrency items).errors.map Prod.fst).Perm items
    ∧ (processInBatches proc concurrency items).progress =
        (List.range' 1 items.length).map (fun j => (j, items.length)) := by
  have hrun : processInBatches proc concurrency items =
      ⟨items.filterMap (okEntry proc), items.filterMap (errEntry proc),
       (List.range' 1 items.length).map (fun j => (j, items.length)), items.length⟩ := by
    unfold processInBatches
    rw [foldl_chunks]
    simp [flatten_chunksOf concurrency hc items]
  refine ⟨by rw [hrun], by rw [hrun], ?_, by rw [hrun]⟩
  rw [hrun]
  simp only [map_fst_filterMap_okEntry, map_fst_filterMap_errEntry]
  exact List.filter_append_perm (procOk proc) items

/-- Witness for C3's theorem: three items with the middle one failing,
concurrency 3. -/
theorem processInBatches_contract_witness :
    (processInBatches (fun n : Nat => if n = 1 then .error "boom" else .ok (n * 2))
        3 [0, 1, 2]).successes = [(0, 0), (2, 4)]
    ∧ (processInBatches (fun n : Nat => if n = 1 then .error "boom" else .ok (n * 2))
        3 [0, 1, 2]).progress = [(1, 3), (2, 3), (3, 3)] := by
  have h := processInBatches_contract
    (fun n : Nat => if n = 1 then .error "boom" else .ok (n * 2)) 3 [0, 1, 2] (by decide)
  exact ⟨by rw [h.1]; rfl, by rw [h.2.2.2]; rfl⟩

/-! ## Attachments, tags and the sync record (ui.js SyncManagerModule)

An attachment carries its Zotero tag list, the parsed sync record stored in
its note (already placeholder-resolved; none when absent) and its own file
path.  Tag strings are the configurable onTablet / modified markers; parent
items are not modelled: none of the verified claims reads parent state.
A record location of none models a JS-falsy location (undefined or empty),
matching the !info.location guards in the source. -/

/-- Sync modes, Constants.MODE: BACKGROUND (copy) = 1, FOREGROUND (move) = 2. -/
def MODE_BACKGROUND : Nat := 1
def MODE_FOREGROUND : Nat := 2

/-- The parsed sync record, as getTabletInfo yields it for well-formed data. -/
structure TabletInfo where
  location : Option Path
  lastmod : Int
  mode : Nat
deriving DecidableEq

/-- An attachment together with the host state the sync engine reads. -/
structure Att where
  id : Nat
  tags : List String
  info : Option TabletInfo
  zoteroPath : Option Path
deriving DecidableEq

/-- Zotero.Item.hasTag. -/
def hasTag (a : Att) (t : String) : Bool :=
  a.tags.contains t

/-- Zotero.Item.addTag (appends unless already present). -/
def addTag (a : Att) (t : String) : Att :=
  if hasTag a t then a else ⟨a.id, a.tags ++ [t], a.info, a.zoteroPath⟩

/-- Zotero.Item.removeTag. -/
def removeTag (a : Att) (t : String) : Att :=
  ⟨a.id, a.tags.filter (fun s => s ≠ t), a.info, a.zoteroPath⟩

/-- addTabletTag (ui.js:1168-1189), attachment part: add the given tag and
remove the other one of the onTablet/modified pair.  (The parent-item
bookkeeping of the source touches only the parent and is not read by any
verified claim.) -/
def addTabletTag (tOn tMod : String) (a : Att) (tag : String) : Att :=
  let otherTag := if tag = tOn then tMod else tOn
  removeTag (addTag a tag) otherTag

/-- removeTabletTag (ui.js:1194-1207), attachment part. -/
def removeTabletTag (a : Att) (tag : String) : Att :=
  removeTag a tag

/-- clearTabletInfo (ui.js:1275-1291): the record element is removed from
the note. -/
def clearTabletInfo (a : Att) : Att :=
  ⟨a.id, a.tags, none, a.zoteroPath⟩

/-- isOnTablet (ui.js:1298-1301). -/
def isOnTablet (tOn tMod : String) (a : Att) : Bool :=
  hasTag a tOn || hasTag a tMod

/-- isModified (ui.js:1306-1318): tracked, record with a location, external
file exists, and its mtime strictly exceeds the recorded lastmod. -/
def isModified (tOn tMod : String) (fs : FS) (a : Att) : Bool :=
  if !isOnTablet tOn tMod a then false
  else
    match a.info with
    | none => false
    | some info =>
      match info.location with
      | none => false
      | some loc =>
        if !fileExists fs loc then false
        else decide (info.lastmod < getFileModTime fs loc)

/-- **C10.**  getFileModTime is total and returns 0 when stat fails (the
path is missing/unreadable), so every comparison against a recorded
lastModified is defined and a missing file is never newer than any
non-negative recorded timestamp. -/
theorem getFileModTime_total (fs : FS) (p : Path) (T : Int)
    (hmiss : fs p = none) (hT : 0 ≤ T) :
    getFileModTime fs p = 0 ∧ ¬ (T < getFileModTime fs p) := by
  have h0 : getFileModTime fs p = 0 := by
    unfold getFileModTime
    rw [hmiss]
  exact ⟨h0, by rw [h0]; omega⟩

/-- Witness for C10's theorem on the empty filesystem. -/
theorem getFileModTime_total_witness :
    getFileModTime (fun _ => none) "/x.pdf".data = 0 ∧
    ¬ ((7 : Int) < getFileModTime (fun _ => none) "/x.pdf".data) :=
  getFileModTime_total (fun _ => none) "/x.pdf".data 7 rfl (by omega)

/-- **C6.**  isModified returns true iff the attachment is tracked, its
record exists with a location, the external file exists there, and the
observed mtime strictly exceeds the recorded lastModified; in every other
case it returns false. -/
theorem isModified_iff (tOn tMod : String) (fs : FS) (a : Att) :
    isModified tOn tMod fs a = true ↔
      (isOnTablet tOn tMod a = true ∧
        ∃ info loc, a.info = some info ∧ info.location = some loc ∧
          fileExists fs loc = true ∧ info.lastmod < getFileModTime fs loc) := by
  unfold isModified
  constructor
  · intro h
    by_cases hon : isOnTablet tOn tMod a = true
    · refine ⟨hon, ?_⟩
      rw [hon] at h
      simp only [Bool.not_true, Bool.false_eq_true, if_false] at h
      cases hinfo : a.info with
      | none => simp [hinfo] at h
      | some info =>
        simp only [hinfo] at h
        cases hloc : info.location with
        | none => simp [hloc] at h
        | some loc =>
          simp only [hloc] at h
          by_cases hex : fileExists fs loc = true
          · simp only [hex, Bool.not_true, Bool.false_eq_true, if_false,
              decide_eq_true_eq] at h
            exact ⟨info, loc, rfl, hloc, hex, h⟩
          · simp only [Bool.not_eq_true] at hex
            simp [hex] at h
    · simp only [Bool.not_eq_true] at hon
      rw [hon] at h
      simp at h
  · rintro ⟨hon, info, loc, hinfo, hloc, hex, hlt⟩
    rw [hon]
    simp [hinfo, hloc, hex, hlt]

/-- Witness for C6's theorem: a tracked attachment whose external copy is
one tick newer than the recorded time. -/
theorem isModified_iff_witness :
    isModified "_tablet" "_tablet_modified"
      (fun p => if p = "/t/f.pdf".data then some 6 else none)
      ⟨0, ["_tablet"], some ⟨some "/t/f.pdf".data, 5, 1⟩, none⟩ = true :=
  (isModified_iff "_tablet" "_tablet_modified"
      (fun p => if p = "/t/f.pdf".data then some 6 else none)
      ⟨0, ["_tablet"], some ⟨some "/t/f.pdf".data, 5, 1⟩, none⟩).2
    ⟨by decide, ⟨some "/t/f.pdf".data, 5, 1⟩, "/t/f.pdf".data, rfl, rfl,
      by simp [fileExists], by simp [getFileModTime]⟩

/-- **C9.**  After every addTabletTag call with one of the two (distinct)
markers, the attachment carries exactly that marker of the pair: adding one
always removes the other, so the on-tablet and modified display states are
mutually exclusive on the attachment. -/
theorem hasTag_iff (a : Att) (t : String) : hasTag a t = true ↔ t ∈ a.tags := by
  simp [hasTag]

theorem addTag_mem (a : Att) (tag : String) : tag ∈ (addTag a tag).tags := by
  unfold addTag
  by_cases hhas : hasTag a tag = true
  · rw [if_pos hhas]
    exact (hasTag_iff a tag).1 hhas
  · rw [if_neg (by simpa using hhas)]
    simp

theorem addTabletTag_keep (tOn tMod : String) (a : Att) (tag : String)
    (hother : (if tag = tOn then tMod else tOn) ≠ tag) :
    hasTag (addTabletTag tOn tMod a tag) tag = true := by
  unfold addTabletTag removeTag
  rw [hasTag_iff]
  simp only [List.mem_filter]
  exact ⟨addTag_mem a tag, by simp [hother.symm]⟩

theorem addTabletTag_drop (tOn tMod : String) (a : Att) (tag : String) :
    hasTag (addTabletTag tOn tMod a tag) (if tag = tOn then tMod else tOn) = false := by
  unfold addTabletTag removeTag
  rw [Bool.eq_false_iff]
  intro hc
  have hmem := (hasTag_iff _ _).1 hc
  simp only [List.mem_filter] at hmem
  simpa using hmem.2

theorem addTabletTag_info (tOn tMod : String) (a : Att) (tag : String) :
    (addTabletTag tOn tMod a tag).info = a.info := by
  unfold addTabletTag removeTag addTag
  split <;> split <;> rfl

theorem addTabletTag_exclusive (tOn tMod : String) (a : Att) (tag : String)
    (hne : tOn ≠ tMod) (htag : tag = tOn ∨ tag = tMod) :
    hasTag (addTabletTag tOn tMod a tag) tag = true
    ∧ hasTag (addTabletTag tOn tMod a tag) (if tag = tOn then tMod else tOn) = false
    ∧ ((hasTag (addTabletTag tOn tMod a tag) tOn = true) ↔ tag = tOn)
    ∧ ((hasTag (addTabletTag tOn tMod a tag) tMod = true) ↔ tag = tMod) := by
  have hother : (if tag = tOn then tMod else tOn) ≠ tag := by
    by_cases hcase : tag = tOn
    · rw [if_pos hcase, hcase]
      exact fun hc => hne hc.symm
    · rw [if_neg hcase]
      exact fun hc => hcase hc.symm
  have hkeep : hasTag (addTabletTag tOn tMod a tag) tag = true :=
    addTabletTag_keep tOn tMod a tag hother
  have hdrop : hasTag (addTabletTag tOn tMod a tag)
      (if tag = tOn then tMod else tOn) = false :=
    addTabletTag_drop tOn tMod a tag
  refine ⟨hkeep, hdrop, ?_, ?_⟩
  · rcases htag with h | h
    · rw [h] at hkeep ⊢
      simpa using hkeep
    · rw [h] at hdrop ⊢
      rw [if_neg (fun hc => hne hc.symm)] at hdrop
      constructor
      · intro hc
        rw [hdrop] at hc
        cases hc
      · intro hc
        exact absurd hc.symm hne
  · rcases htag with h | h
    · rw [h] at hdrop ⊢
      rw [if_pos rfl] at hdrop
      constructor
      · intro hc
        rw [hdrop] at hc
        cases hc
      · intro hc
        exact absurd hc hne
    · rw [h] at hkeep ⊢
      simpa using hkeep

/-- Witness for C9's theorem: flipping a tracked attachment to modified. -/
theorem addTabletTag_exclusive_witness :
    hasTag (addTabletTag "_tablet" "_tablet_modified"
        ⟨0, ["_tablet"], none, none⟩ "_tablet_modified") "_tablet_modified" = true
    ∧ hasTag (addTabletTag "_tablet" "_tablet_modified"
        ⟨0, ["_tablet"], none, none⟩ "_tablet_modified") "_tablet" = false := by
  have h := addTabletTag_exclusive "_tablet" "_tablet_modified"
    ⟨0, ["_tablet"], none, none⟩ "_tablet_modified" (by decide) (Or.inr rfl)
  refine ⟨h.1, ?_⟩
  have := h.2.1
  simpa using this

/-! ## Check-modifications (ui.js:1704-1755)

The pass filters to tracked attachments, computes (isModified,
hasModifiedTag) for each from the pre-pass state, then sequentially flips
the tag pair for attachments whose displayed state disagrees with the
computed status, counting newly-modified ones.  Per-attachment checks read
only that attachment's own state, so the check and update phases are fused
per item; untracked attachments pass through untouched. -/

/-- Result of one checkModifications pass: the attachment list after the
in-place updates, the newly-modified count the function returns, and the
number of tag updates performed. -/
structure CheckResult where
  atts : List Att
  modifiedCount : Nat
  updates : Nat
deriving DecidableEq

/-- One attachment's passage through checkModifications: the updated
attachment, its contribution to the newly-modified count, and whether a
tag update was performed. -/
def checkOne (tOn tMod : String) (fs : FS) (a : Att) : Att × Nat × Nat :=
  if !isOnTablet tOn tMod a then (a, 0, 0)
  else
    let m := isModified tOn tMod fs a
    let h := hasTag a tMod
    if m && !h then (addTabletTag tOn tMod a tMod, 1, 1)
    else if !m && h then (addTabletTag tOn tMod a tOn, 0, 1)
    else (a, 0, 0)

/-- checkModifications over a selection of attachments. -/
def checkModifications (tOn tMod : String) (fs : FS) (atts : List Att) :
    CheckResult :=
  let results := atts.map (checkOne tOn tMod fs)
  ⟨results.map Prod.fst,
   (results.map (fun r => r.2.1)).sum,
   (results.map (fun r => r.2.2)).sum⟩

theorem isModified_congr (tOn tMod : String) (fs : FS) (a b : Att)
    (h1 : a.info = b.info) (h2 : isOnTablet tOn tMod a = isOnTablet tOn tMod b) :
    isModified tOn tMod fs a = isModified tOn tMod fs b := by
  unfold isModified
  rw [h1, h2]

theorem checkOne_fst_stable (tOn tMod : String) (fs : FS) (a : Att)
    (hne : tOn ≠ tMod) :
    checkOne tOn tMod fs ((checkOne tOn tMod fs a).1) =
      ((checkOne tOn tMod fs a).1, 0, 0) := by
  by_cases hon : isOnTablet tOn tMod a = true
  · by_cases hm : isModified tOn tMod fs a = true
    · by_cases hh : hasTag a tMod = true
      · -- already tagged modified: no update on either run
        have h1 : checkOne tOn tMod fs a = (a, 0, 0) := by
          unfold checkOne
          rw [if_neg (by simp [hon])]
          simp [hm, hh]
        rw [h1]
        exact h1
      · -- newly modified: the first run flips to the modified tag
        have hh' : hasTag a tMod = false := by simpa using hh
        have h1 : checkOne tOn tMod fs a = (addTabletTag tOn tMod a tMod, 1, 1) := by
          unfold checkOne
          rw [if_neg (by simp [hon])]
          simp [hm, hh']
        rw [h1]
        have hother : (if tMod = tOn then tMod else tOn) ≠ tMod := by
          rw [if_neg (fun hc => hne hc.symm)]
          exact hne
        have hkeep := addTabletTag_keep tOn tMod a tMod hother
        have hon' : isOnTablet tOn tMod (addTabletTag tOn tMod a tMod) = true := by
          simp [isOnTablet, hkeep]
        have hm' : isModified tOn tMod fs (addTabletTag tOn tMod a tMod) = true := by
          rw [isModified_congr tOn tMod fs _ a (addTabletTag_info tOn tMod a tMod)
            (hon'.trans hon.symm)]
          exact hm
        show checkOne tOn tMod fs (addTabletTag tOn tMod a tMod) =
          (addTabletTag tOn tMod a tMod, 0, 0)
        unfold checkOne
        rw [if_neg (by simp [hon'])]
        simp [hm', hkeep]
    · have hm0 : isModified tOn tMod fs a = false := by simpa using hm
      by_cases hh : hasTag a tMod = true
      · -- stale modified tag: the first run flips back to the on-tablet tag
        have h1 : checkOne tOn tMod fs a = (addTabletTag tOn tMod a tOn, 0, 1) := by
          unfold checkOne
          rw [if_neg (by simp [hon])]
          simp [hm0, hh]
        rw [h1]
        have hother : (if tOn = tOn then tMod else tOn) ≠ tOn := by
          rw [if_pos rfl]
          exact fun hc => hne hc.symm
        have hkeep := addTabletTag_keep tOn tMod a tOn hother
        have hdrop : hasTag (addTabletTag tOn tMod a tOn) tMod = false := by
          have hd := addTabletTag_drop tOn tMod a tOn
          rwa [if_pos rfl] at hd
        have hon' : isOnTablet tOn tMod (addTabletTag tOn tMod a tOn) = true := by
          simp [isOnTablet, hkeep]
        have hm' : isModified tOn tMod fs (addTabletTag tOn tMod a tOn) = false := by
          rw [isModified_congr tOn tMod fs _ a (addTabletTag_info tOn tMod a tOn)
            (hon'.trans hon.symm)]
          exact hm0
        show checkOne tOn tMod fs (addTabletTag tOn tMod a tOn) =
          (addTabletTag tOn tMod a tOn, 0, 0)
        unfold checkOne
        rw [if_neg (by simp [hon'])]
        simp [hm', hdrop]
      · -- consistent untagged state: no update on either run
        have hh' : hasTag a tMod = false := by simpa using hh
        have h1 : checkOne tOn tMod fs a = (a, 0, 0) := by
          unfold checkOne
          rw [if_neg (by simp [hon])]
          simp [hm0, hh']
        rw [h1]
        exact h1
  · have hon' : isOnTablet tOn tMod a = false := by simpa using hon
    have h1 : checkOne tOn tMod fs a = (a, 0, 0) := by
      unfold checkOne
      rw [if_pos (by simp [hon'])]
    rw [h1]
    exact h1

theorem sum_map_zero (l : List α) : (l.map (fun _ => (0 : Nat))).sum = 0 := by
  induction l with
  | nil => rfl
  | cons a rest ih => simp [ih]

/-- **C5.**  Running check-modifications a second time with no intervening
filesystem or record change performs zero tag updates and returns a
newly-modified count of zero: every attachment whose displayed state
already matches its computed status is passed through untouched. -/
theorem checkModifications_idempotent (tOn tMod : String) (fs : FS)
    (atts : List Att) (hne : tOn ≠ tMod) :
    checkModifications tOn tMod fs (checkModifications tOn tMod fs atts).atts =
      ⟨(checkModifications tOn tMod fs atts).atts, 0, 0⟩ := by
  have hone : ∀ a : Att,
      checkOne tOn tMod fs ((checkOne tOn tMod fs a).1) =
        ((checkOne tOn tMod fs a).1, 0, 0) :=
    fun a => checkOne_fst_stable tOn tMod fs a hne
  unfold checkModifications
  simp only [List.map_map]
  have hcomp : (checkOne tOn tMod fs ∘ (Prod.fst ∘ checkOne tOn tMod fs)) =
      fun a => ((checkOne tOn tMod fs a).1, 0, 0) := by
    funext a
    exact hone a
  rw [hcomp]
  simp only [CheckResult.mk.injEq, List.map_map]
  refine ⟨rfl, ?_, ?_⟩
  · exact sum_map_zero atts
  · exact sum_map_zero atts

/-- Witness for C5's theorem: one tracked attachment whose external file is
newer than the record; the first pass tags it modified, the second pass is
a no-op. -/
theorem checkModifications_idempotent_witness :
    checkModifications "_tablet" "_tablet_modified"
        (fun p => if p = "/t/f.pdf".data then some 6 else none)
        (checkModifications "_tablet" "_tablet_modified"
          (fun p => if p = "/t/f.pdf".data then some 6 else none)
          [⟨0, ["_tablet"], some ⟨some "/t/f.pdf".data, 5, 1⟩, none⟩]).atts =
      ⟨(checkModifications "_tablet" "_tablet_modified"
          (fun p => if p = "/t/f.pdf".data then some 6 else none)
          [⟨0, ["_tablet"], some ⟨some "/t/f.pdf".data, 5, 1⟩, none⟩]).atts, 0, 0⟩ :=
  checkModifications_idempotent "_tablet" "_tablet_modified"
    (fun p => if p = "/t/f.pdf".data then some 6 else none)
    [⟨0, ["_tablet"], some ⟨some "/t/f.pdf".data, 5, 1⟩, none⟩] (by decide)

/-! ## getTabletInfo and malformed persisted data (ui.js:1241-1270) — C7

The persisted blob lives in a data attribute of a note element.  The DOM
extraction (DOMParser, querySelector, getAttribute — host APIs that do not
throw on HTML input) is summarised by the note state; JSON.parse is an
abstract parameter that either yields a JS value or throws.  The try/catch
of the source is modelled by an Except-valued try block whose error is
mapped to the absent result. -/

/-- A model of the JS values JSON.parse can produce. -/
inductive JsValue
  | jnull
  | jbool (b : Bool)
  | jnum (n : Int)
  | jstr (s : Path)
  | jarr (elems : List JsValue)
  | jobj (fields : List (Path × JsValue))

/-- JS truthiness of a JSON-parsed value (NaN is not produced by parsing). -/
def truthy : JsValue → Bool
  | .jnull => false
  | .jbool b => b
  | .jnum n => n != 0
  | .jstr s => !s.isEmpty
  | .jarr _ => true
  | .jobj _ => true

/-- Property read (info.location): throws on null, yields the field on an
object, and undefined (none) on any other value. -/
def getProp : JsValue → Path → Except Unit (Option JsValue)
  | .jnull, _ => .error ()
  | .jobj fields, k => .ok ((fields.find? (fun f => f.1 == k)).map Prod.snd)
  | _, _ => .ok none

/-- Property write (info.location = v): updates or adds the field on an
object; silently ignored on primitives (sloppy mode).  In getTabletInfo it
is only reached when the value is an object with the field present. -/
def setProp : JsValue → Path → JsValue → JsValue
  | .jobj fields, k, v =>
    if fields.any (fun f => f.1 == k) then
      .jobj (fields.map (fun f => if f.1 == k then (f.1, v) else f))
    else .jobj (fields ++ [(k, v)])
  | w, _, _ => w

/-- Calling the string method .replace on a value: throws unless it is a
string. -/
def asString : JsValue → Except Unit Path
  | .jstr s => .ok s
  | _ => .error ()

/-- The JSON key of the stored location. -/
def locationKey : Path := "location".data

/-- The note state getTabletInfo reads: whether getNote() returned
nonempty content, and the data-zottablet attribute of the zottablet-data
element when present. -/
structure NoteState where
  hasContent : Bool
  dataAttr : Option Path

/-- The try-block body of getTabletInfo: extract the attribute, parse it,
and if the parsed value has a truthy location, substitute the current
(trailing-separator-stripped) root for the placeholder in it.  Every
JS-throwing step is an Except error. -/
def tryParseData (jp : Path → Except Unit JsValue) (destDirPref : Path) :
    Option Path → Except Unit (Option JsValue)
  | none => .ok none
  | some data =>
    if data.isEmpty then .ok none
    else do
      let info ← jp data
      let loc ← getProp info locationKey
      match loc with
      | some locv =>
        if truthy locv then do
          let s ← asString locv
          pure (some (setProp info locationKey (.jstr (resolveLocation destDirPref s))))
        else pure (some info)
      | none => pure (some info)

def getTabletInfoTry (jp : Path → Except Unit JsValue) (destDirPref : Path)
    (note : NoteState) : Except Unit (Option JsValue) :=
  tryParseData jp destDirPref note.dataAttr

/-- getTabletInfo (ui.js:1241-1270): empty note content yields null before
the try block; any error thrown inside the try block is caught and also
yields null; otherwise the try block's value is returned. -/
def getTabletInfo (jp : Path → Except Unit JsValue) (destDirPref : Path)
    (note : NoteState) : Option JsValue :=
  if !note.hasContent then none
  else
    match getTabletInfoTry jp destDirPref note with
    | .ok r => r
    | .error _ => none

/-- **C7 (amended).**  getTabletInfo never propagates an error: empty note
content, a missing attribute, and an unparsable blob all yield the absent
value, and every error thrown inside the try block (JSON.parse failure,
property access on null, .replace on a non-string location) is caught and
yields the absent value; every non-throwing run returns the try block's
value as-is — which for a parsable blob that is not a record object can be
a present, non-record value rather than the absent one. -/
theorem getTabletInfo_tolerates_malformed (jp : Path → Except Unit JsValue)
    (dd : Path) (note : NoteState) :
    (note.hasContent = false → getTabletInfo jp dd note = none)
    ∧ (note.dataAttr = none → getTabletInfo jp dd note = none)
    ∧ (∀ d, note.dataAttr = some d → d ≠ [] → jp d = .error () →
        getTabletInfo jp dd note = none)
    ∧ (∀ e, getTabletInfoTry jp dd note = .error e → getTabletInfo jp dd note = none)
    ∧ (∀ r, getTabletInfoTry jp dd note = .ok r → note.hasContent = true →
        getTabletInfo jp dd note = r) := by
  refine ⟨?_, ?_, ?_, ?_, ?_⟩
  · intro h
    unfold getTabletInfo
    rw [if_pos (by simp [h])]
  · intro h
    unfold getTabletInfo
    by_cases hc : note.hasContent = true
    · rw [if_neg (by simp [hc])]
      unfold getTabletInfoTry
      rw [h]
      rfl
    · rw [if_pos (by simpa using hc)]
  · intro d hd hne hjp
    unfold getTabletInfo
    by_cases hc : note.hasContent = true
    · rw [if_neg (by simp [hc])]
      have htry : getTabletInfoTry jp dd note = .error () := by
        unfold getTabletInfoTry
        rw [hd]
        simp only [tryParseData]
        rw [if_neg (by simpa [List.isEmpty_iff] using hne)]
        rw [hjp]
        rfl
      rw [htry]
    · rw [if_pos (by simpa using hc)]
  · intro e he
    unfold getTabletInfo
    by_cases hc : note.hasContent = true
    · rw [if_neg (by simp [hc])]
      rw [he]
    · rw [if_pos (by simpa using hc)]
  · intro r hr hc
    unfold getTabletInfo
    rw [if_neg (by simp [hc])]
    rw [hr]

/-- JSON.parse restricted to the blob used in the counterexample: the
string 5 parses to the number 5, exactly as the host JSON.parse does. -/
def jpNum5 : Path → Except Unit JsValue :=
  fun s => if s = "5".data then .ok (.jnum 5) else .error ()

/-- **C7 (counterexample).**  A persisted blob of 5 is parsable but
malformed as a sync record; getTabletInfo returns the parsed number 5 —
a present value, not the absent one the claim requires for malformed
data. -/
theorem getTabletInfo_malformed_counterexample :
    getTabletInfo jpNum5 [] ⟨true, some "5".data⟩ = some (.jnum 5)
    ∧ getTabletInfo jpNum5 [] ⟨true, some "5".data⟩ ≠ none := by
  refine ⟨rfl, ?_⟩
  intro h
  rw [show getTabletInfo jpNum5 [] ⟨true, some "5".data⟩ = some (.jnum 5) from rfl] at h
  cases h

/-- Witness for C7's theorem: nonempty note content without the data
element yields the absent value. -/
theorem getTabletInfo_tolerates_malformed_witness :
    getTabletInfo jpNum5 [] ⟨true, none⟩ = none :=
  (getTabletInfo_tolerates_malformed jpNum5 [] ⟨true, none⟩).2.1 rfl

/-! ## Retrieve, phases 1-2: gather and conflict resolution
(getFromTablet, ui.js:1481-1581) — C1

The attachment's parsed record is its info field; gatherInfo is total in
this model (the host calls it wraps cannot fail here), so the batch
executor returns every gather result in order — processInBatches_contract.
Gather and conflict resolution build lists only; every file-system
operation of the pass happens in the later apply/cleanup phases, modelled
below for C8. -/

/-- The three-way conflict answer (ui.js:1828-1851). -/
inductive Res
  | tablet
  | zotero
  | cancel
deriving DecidableEq

/-- The per-file data gatherInfo returns (ui.js:1524-1532).  useTablet is
false out of gather, modelling the unset (falsy) JS field. -/
structure GatherData where
  att : Att
  info : TabletInfo
  tabletPath : Path
  zoteroPath : Option Path
  tabletModified : Bool
  zoteroModified : Bool
  useTablet : Bool
deriving DecidableEq

/-- Outcome of gatherInfo: no record, missing external file (marked for
cleanup), or the gathered data. -/
inductive GatherResult
  | skipNoInfo
  | skipNoFile (att : Att)
  | ok (g : GatherData)
deriving DecidableEq

/-- getTabletFilePath (ui.js:1323-1338): foreground mode reads the
attachment's own path; background mode requires the stored location to
exist. -/
def getTabletFilePath (fs : FS) (a : Att) : Option Path :=
  match a.info with
  | none => none
  | some info =>
    if info.mode = MODE_FOREGROUND then a.zoteroPath
    else
      match info.location with
      | none => none
      | some loc => if fileExists fs loc then some loc else none

/-- gatherInfo (ui.js:1505-1533).  The lastmod || 0 default is the
identity on the Int-valued field. -/
def gatherInfo (fs : FS) (a : Att) : GatherResult :=
  match a.info with
  | none => .skipNoInfo
  | some info =>
    match getTabletFilePath fs a with
    | none => .skipNoFile a
    | some tabletPath =>
      .ok ⟨a, info, tabletPath, a.zoteroPath,
        decide (info.lastmod < getFileModTime fs tabletPath),
        decide (info.lastmod <
          (match a.zoteroPath with | some p => getFileModTime fs p | none => 0)),
        false⟩

/-- hasConflict (ui.js:1531): both copies modified — the source applies
no mode condition. -/
def hasConflict (g : GatherData) : Bool :=
  g.tabletModified && g.zoteroModified

/-- Whether an attachment gathers as a conflict. -/
def conflictAtt (fs : FS) (a : Att) : Bool :=
  match gatherInfo fs a with
  | .ok g => hasConflict g
  | _ => false

/-- The resolution loop's treatment of one conflict entry
(ui.js:1567-1581): the callback answer sets useTablet; cancel drops the
entry from further processing. -/
def resolveEntry (resolve : Att → Res) (g : GatherData) : Option GatherData :=
  match resolve g.att with
  | .tablet => some ⟨g.att, g.info, g.tabletPath, g.zoteroPath,
      g.tabletModified, g.zoteroModified, true⟩
  | .zotero => some ⟨g.att, g.info, g.tabletPath, g.zoteroPath,
      g.tabletModified, g.zoteroModified, false⟩
  | .cancel => none

/-- The state after gather and conflict resolution: entries to process in
the apply phase, attachments to clean up (missing external file), the
conflict list, and the log of conflict-callback invocations. -/
structure RetrievePlan where
  toProcess : List GatherData
  toCleanup : List Att
  conflicts : List GatherData
  callbackLog : List Att
deriving DecidableEq

/-- Phases 1-2 of getFromTablet (ui.js:1496-1581): filter to tracked
attachments, gather, partition, then resolve conflicts sequentially —
the callback fires once per conflict entry, in order, and resolved
entries are appended to toProcess. -/
def planRetrieve (tOn tMod : String) (fs : FS) (resolve : Att → Res)
    (atts : List Att) : RetrievePlan :=
  let tabletAtts := atts.filter (isOnTablet tOn tMod)
  let okResults := (tabletAtts.map (gatherInfo fs)).filterMap
    (fun r => match r with | .ok g => some g | _ => none)
  let toCleanup := (tabletAtts.map (gatherInfo fs)).filterMap
    (fun r => match r with | .skipNoFile b => some b | _ => none)
  let conflicts := okResults.filter (fun g => hasConflict g)
  let nonConflicts := okResults.filter (fun g => !hasConflict g)
  ⟨nonConflicts ++ conflicts.filterMap (resolveEntry resolve),
   toCleanup, conflicts, conflicts.map GatherData.att⟩

theorem gatherInfo_ok_att (fs : FS) (b : Att) (g : GatherData)
    (h : gatherInfo fs b = .ok g) : g.att = b := by
  unfold gatherInfo at h
  cases hinfo : b.info with
  | none => rw [hinfo] at h; cases h
  | some info =>
    rw [hinfo] at h
    cases htp : getTabletFilePath fs b with
    | none => rw [htp] at h; cases h
    | some tp =>
      rw [htp] at h
      cases h
      rfl

theorem gatherInfo_skipNoFile_att (fs : FS) (b c : Att)
    (h : gatherInfo fs b = .skipNoFile c) : c = b := by
  unfold gatherInfo at h
  cases hinfo : b.info with
  | none => rw [hinfo] at h; cases h
  | some info =>
    rw [hinfo] at h
    cases htp : getTabletFilePath fs b with
    | none => rw [htp] at h; cases h; rfl
    | some tp => rw [htp] at h; cases h

theorem conflicts_map_att (fs : FS) :
    ∀ l : List Att,
      ((((l.map (gatherInfo fs)).filterMap
          (fun r => match r with | .ok g => some g | _ => none)).filter
            (fun g => hasConflict g)).map GatherData.att) =
        l.filter (conflictAtt fs) := by
  intro l
  induction l with
  | nil => rfl
  | cons b rest ih =>
    simp only [List.map_cons, List.filterMap_cons]
    cases hg : gatherInfo fs b with
    | skipNoInfo =>
      simp only []
      rw [ih]
      have hca : conflictAtt fs b = false := by
        unfold conflictAtt
        rw [hg]
      rw [List.filter_cons, hca]
      simp
    | skipNoFile c =>
      simp only []
      rw [ih]
      have hca : conflictAtt fs b = false := by
        unfold conflictAtt
        rw [hg]
      rw [List.filter_cons, hca]
      simp
    | ok g =>
      simp only []
      have hca : conflictAtt fs b = hasConflict g := by
        unfold conflictAtt
        rw [hg]
      rw [List.filter_cons, List.filter_cons, hca]
      by_cases hcf : hasConflict g = true
      · rw [hcf]
        simp only [if_true]
        rw [List.map_cons, ih, gatherInfo_ok_att fs b g hg]
      · have hcf' : hasConflict g = false := by simpa using hcf
        rw [hcf']
        simp only [Bool.false_eq_true, if_false]
        exact ih

/-- **C1 (amended).**  During retrieve, a gathered file is reported as a
conflict iff both the external and the internal modification flags are
true — with no mode condition: in Move (foreground) mode both paths are
the attachment's own file, so both flags coincide and a modified file
still conflicts.  The conflict callback log contains exactly the
conflicting tracked files, once each (for duplicate-free input), and a
conflicted entry enters the apply phase only carrying a non-cancel answer;
gather and resolution build lists only, every file-system write of the
pass happening in the later phases over toProcess/toCleanup. -/
theorem retrieve_conflict_protocol (tOn tMod : String) (fs : FS)
    (resolve : Att → Res) (atts : List Att) (hnd : atts.Nodup) :
    (planRetrieve tOn tMod fs resolve atts).callbackLog =
        atts.filter (fun a => isOnTablet tOn tMod a && conflictAtt fs a)
    ∧ (∀ a ∈ atts, (planRetrieve tOn tMod fs resolve atts).callbackLog.count a =
        if isOnTablet tOn tMod a && conflictAtt fs a then 1 else 0)
    ∧ (∀ a g, gatherInfo fs a = .ok g →
        (hasConflict g = true ↔ (g.tabletModified = true ∧ g.zoteroModified = true)))
    ∧ (∀ g ∈ (planRetrieve tOn tMod fs resolve atts).toProcess,
        hasConflict g = true → resolve g.att ≠ .cancel) := by
  have hlog : (planRetrieve tOn tMod fs resolve atts).callbackLog =
      atts.filter (fun a => isOnTablet tOn tMod a && conflictAtt fs a) := by
    show ((((atts.filter (isOnTablet tOn tMod)).map (gatherInfo fs)).filterMap
        (fun r => match r with | .ok g => some g | _ => none)).filter
          (fun g => hasConflict g)).map GatherData.att = _
    rw [conflicts_map_att fs (atts.filter (isOnTablet tOn tMod))]
    rw [List.filter_filter]
    apply List.filter_congr
    intro a _
    exact Bool.and_comm _ _
  refine ⟨hlog, ?_, ?_, ?_⟩
  · intro a ha
    rw [hlog]
    have hndf : (atts.filter
        (fun a => isOnTablet tOn tMod a && conflictAtt fs a)).Nodup :=
      hnd.filter _
    by_cases hpred : (isOnTablet tOn tMod a && conflictAtt fs a) = true
    · rw [if_pos hpred]
      exact List.count_eq_one_of_mem hndf (List.mem_filter.2 ⟨ha, hpred⟩)
    · rw [if_neg hpred]
      refine List.count_eq_zero.2 ?_
      intro hmem
      exact hpred (List.mem_filter.1 hmem).2
  · intro a g _
    unfold hasConflict
    simp
  · intro g hg hconf
    have hmem : g ∈
        ((((atts.filter (isOnTablet tOn tMod)).map (gatherInfo fs)).filterMap
          (fun r => match r with | .ok g => some g | _ => none)).filter
            (fun g => !hasConflict g)) ++
        (((((atts.filter (isOnTablet tOn tMod)).map (gatherInfo fs)).filterMap
          (fun r => match r with | .ok g => some g | _ => none)).filter
            (fun g => hasConflict g)).filterMap (resolveEntry resolve)) := hg
    rw [List.mem_append] at hmem
    rcases hmem with hnc | hres
    · have := (List.mem_filter.1 hnc).2
      rw [hconf] at this
      cases this
    · rw [List.mem_filterMap] at hres
      obtain ⟨c, _, hce⟩ := hres
      unfold resolveEntry at hce
      cases hr : resolve c.att with
      | tablet =>
        rw [hr] at hce
        have hga : g.att = c.att := by
          cases hce
          rfl
        rw [hga, hr]
        decide
      | zotero =>
        rw [hr] at hce
        have hga : g.att = c.att := by
          cases hce
          rfl
        rw [hga, hr]
        decide
      | cancel =>
        rw [hr] at hce
        cases hce

/-- Foreground-mode attachment whose single file is newer than the
record: both gather flags are computed from the same path. -/
def attFG : Att :=
  ⟨7, ["_tablet"], some ⟨some "/t/f.pdf".data, 5, 2⟩, some "/z/f.pdf".data⟩

def fsFG : FS :=
  fun p => if p = "/z/f.pdf".data then some 9 else none

def gFG : GatherData :=
  ⟨attFG, ⟨some "/t/f.pdf".data, 5, 2⟩, "/z/f.pdf".data, some "/z/f.pdf".data,
    true, true, false⟩

/-- **C1 (counterexample).**  A Move-mode (foreground) file modified since
send gathers with hasConflict = true although its mode is not Copy
(background): the claim's "conflict only in Copy mode" direction fails on
the code. -/
theorem conflict_mode_counterexample :
    gatherInfo fsFG attFG = .ok gFG
    ∧ hasConflict gFG = true
    ∧ gFG.info.mode ≠ MODE_BACKGROUND := by
  refine ⟨rfl, rfl, by decide⟩

/-- Witness for C1's theorem: a single background-mode conflicted file;
the callback log is exactly that file. -/
def attBG : Att :=
  ⟨3, ["_tablet"], some ⟨some "/t/g.pdf".data, 5, 1⟩, some "/z/g.pdf".data⟩

def fsBG : FS :=
  fun p => if p = "/t/g.pdf".data then some 9
    else if p = "/z/g.pdf".data then some 8 else none

theorem retrieve_conflict_protocol_witness :
    (planRetrieve "_tablet" "_tablet_modified" fsBG (fun _ => Res.cancel)
        [attBG]).callbackLog = [attBG] := by
  have h := (retrieve_conflict_protocol "_tablet" "_tablet_modified" fsBG
    (fun _ => Res.cancel) [attBG] (by simp)).1
  rw [h]
  rfl

/-! ## Retrieve, phases 3-4: apply and cleanup (ui.js:1583-1679) — C8

File-system effects of the pass are logged as operations and applied to
the path-to-mtime map.  The windowed parallel I/O is run on the canonical
sequential schedule (the per-claim conclusions are stated relative to the
resulting operation log).  removeEmptyDirs removes only directories that
contain no non-hidden entries and therefore never deletes a tracked file;
it contributes no file-level operation.  A copied file's new mtime is
modelled as the source's: no verified claim reads the mtime of a file the
pass wrote. -/

inductive FSOp
  | copy (src dst : Path)
  | move (src dst : Path)
  | remove (p : Path)
deriving DecidableEq

def applyOp (fs : FS) : FSOp → FS
  | .copy s d => fun p => if p = d then fs s else fs p
  | .move s d => fun p => if p = d then fs s else if p = s then none else fs p
  | .remove q => fun p => if p = q then none else fs p

def applyOps : FS → List FSOp → FS
  | fs, [] => fs
  | fs, op :: rest => applyOps (applyOp fs op) rest

/-- The paths an operation list writes (deletes count as writes; a move
writes both endpoints). -/
def writtenPaths : List FSOp → List Path
  | [] => []
  | .copy _ d :: r => d :: writtenPaths r
  | .move s d :: r => s :: d :: writtenPaths r
  | .remove q :: r => q :: writtenPaths r

/-- What processFile (ui.js:1587-1612) returns for one entry. -/
structure ProcResult where
  att : Att
  shouldExtract : Bool
  tabletPath : Option Path
  relink : Option Path
deriving DecidableEq

/-- processFile (ui.js:1587-1612).  Background: copy external over
internal when modified or chosen (throws when the internal path is
unresolved; copyFile with overwrite=true removes the destination and
copies to the exact path — one overwriting copy op).  Foreground: move
the external file back to the storage path through the collision loop and
relink — to originalPath, as the source does, not to the possibly
suffixed final move path. -/
def processFile (opo : Att → Path) (fs : FS) (g : GatherData) :
    Except Unit (ProcResult × List FSOp) :=
  if g.info.mode = MODE_BACKGROUND then
    if g.tabletModified || g.useTablet then
      match g.zoteroPath with
      | none => .error ()
      | some z => .ok (⟨g.att, true, some g.tabletPath, none⟩, [.copy g.tabletPath z])
    else .ok (⟨g.att, false, some g.tabletPath, none⟩, [])
  else
    match collisionLoop (fileExists fs) (baseOf (opo g.att))
        (getFileExtension (opo g.att)) 1000 (opo g.att) 2 with
    | .ok fp => .ok (⟨g.att, true, none, some (opo g.att)⟩, [.move g.tabletPath fp])
    | .error _ => .error ()

/-- The apply phase over the planned entries: per-item failures are caught
by the batch executor and recorded (such items reach neither the results
nor the cleanup loop); effects of successful items apply in order. -/
def runApply (opo : Att → Path) : List GatherData → FS →
    List ProcResult × List FSOp × FS
  | [], fs => ([], [], fs)
  | g :: rest, fs =>
    match processFile opo fs g with
    | .ok (pr, ops) =>
      let r := runApply opo rest (applyOps fs ops)
      (pr :: r.1, ops ++ r.2.1, r.2.2)
    | .error _ => runApply opo rest fs

/-- The cleanup loop's file operation for one result (ui.js:1637-1642):
remove the background-mode tablet copy.  removeEmptyDirs is
directory-level only. -/
def cleanupOps (pr : ProcResult) : List FSOp :=
  match pr.tabletPath with
  | some tp => [.remove tp]
  | none => []

/-- The cleanup loop's metadata update for one attachment
(ui.js:1645-1647, 1662-1664): remove both tablet tags and clear the
record. -/
def clearAttState (tOn tMod : String) (a : Att) : Att :=
  clearTabletInfo (removeTabletTag (removeTabletTag a tOn) tMod)

/-- The pass's net attachment update: processed attachments are relinked
(foreground) and cleared; cleanup attachments are cleared; every other
attachment is untouched. -/
def updateAtt (tOn tMod : String) (fileResults : List ProcResult)
    (toCleanup : List Att) (a : Att) : Att :=
  match fileResults.find? (fun pr => pr.att.id == a.id) with
  | some pr =>
    clearAttState tOn tMod
      (match pr.relink with
       | some p => ⟨a.id, a.tags, a.info, some p⟩
       | none => a)
  | none =>
    if toCleanup.any (fun b => b.id == a.id) then clearAttState tOn tMod a else a

/-- Outcome of a whole getFromTablet pass. -/
structure RetrieveResult where
  finalAtts : List Att
  fs : FS
  ops : List FSOp
  fileResults : List ProcResult
  toCleanupL : List Att
  toExtract : List Att
  retrievedCount : Nat

/-- getFromTablet (ui.js:1481-1695): plan (gather + conflict resolution),
apply, cleanup, and assembly of the final state. -/
def getFromTablet (tOn tMod : String) (opo : Att → Path) (fs : FS)
    (resolve : Att → Res) (atts : List Att) : RetrieveResult :=
  let P := planRetrieve tOn tMod fs resolve atts
  let r := runApply opo P.toProcess fs
  let cleanOps := (r.1.map cleanupOps).flatten
  ⟨atts.map (updateAtt tOn tMod r.1 P.toCleanup),
   applyOps r.2.2 cleanOps,
   r.2.1 ++ cleanOps,
   r.1, P.toCleanup,
   (r.1.filter (fun pr => pr.shouldExtract)).map ProcResult.att,
   r.1.length⟩

/-- The paths through which gatherInfo observes an attachment: its stored
location and its own file path. -/
def relevantPath (a : Att) (p : Path) : Prop :=
  (∃ i, a.info = some i ∧ i.location = some p) ∨ a.zoteroPath = some p

theorem applyOps_append (l₁ l₂ : List FSOp) :
    ∀ fs : FS, applyOps fs (l₁ ++ l₂) = applyOps (applyOps fs l₁) l₂ := by
  induction l₁ with
  | nil => intro fs; rfl
  | cons op rest ih => intro fs; exact ih (applyOp fs op)

theorem runApply_fs (opo : Att → Path) :
    ∀ (l : List GatherData) (fs : FS),
      (runApply opo l fs).2.2 = applyOps fs (runApply opo l fs).2.1 := by
  intro l
  induction l with
  | nil => intro fs; rfl
  | cons g rest ih =>
    intro fs
    unfold runApply
    cases hpf : processFile opo fs g with
    | ok pr =>
      simp only []
      rw [ih (applyOps fs pr.2), applyOps_append]
    | error e => exact ih fs

theorem applyOp_preserve (fs : FS) (op : FSOp) (p : Path)
    (h : p ∉ writtenPaths [op]) : applyOp fs op p = fs p := by
  cases op with
  | copy s d =>
    have hd : p ≠ d := by
      intro hc; exact h (by simp [writtenPaths, hc])
    simp [applyOp, hd]
  | move s d =>
    have hs : p ≠ s := by
      intro hc; exact h (by simp [writtenPaths, hc])
    have hd : p ≠ d := by
      intro hc; exact h (by simp [writtenPaths, hc])
    simp [applyOp, hs, hd]
  | remove q =>
    have hq : p ≠ q := by
      intro hc; exact h (by simp [writtenPaths, hc])
    simp [applyOp, hq]

theorem applyOps_preserve (p : Path) :
    ∀ (ops : List FSOp) (fs : FS), p ∉ writtenPaths ops →
      applyOps fs ops p = fs p := by
  intro ops
  induction ops with
  | nil => intro fs _; rfl
  | cons op rest ih =>
    intro fs h
    have hop : p ∉ writtenPaths [op] := by
      intro hc
      apply h
      cases op <;> simp [writtenPaths] at hc ⊢ <;> tauto
    have hrest : p ∉ writtenPaths rest := by
      intro hc
      apply h
      cases op <;> simp [writtenPaths] <;> tauto
    show applyOps (applyOp fs op) rest p = fs p
    rw [ih (applyOp fs op) hrest, applyOp_preserve fs op p hop]

theorem gatherInfo_ok_useTablet (fs : FS) (b : Att) (g : GatherData)
    (h : gatherInfo fs b = .ok g) : g.useTablet = false := by
  unfold gatherInfo at h
  cases hinfo : b.info with
  | none => rw [hinfo] at h; cases h
  | some info =>
    rw [hinfo] at h
    cases htp : getTabletFilePath fs b with
    | none => rw [htp] at h; cases h
    | some tp =>
      rw [htp] at h
      cases h
      rfl

theorem gatherInfo_congr (fs fs' : FS) (a : Att)
    (h : ∀ p, relevantPath a p → fs' p = fs p) :
    gatherInfo fs' a = gatherInfo fs a := by
  have hz : ∀ z, a.zoteroPath = some z → fs' z = fs z :=
    fun z hzp => h z (Or.inr hzp)
  cases hinfo : a.info with
  | none =>
    unfold gatherInfo
    rw [hinfo]
  | some info =>
    have hloc : ∀ loc, info.location = some loc → fs' loc = fs loc :=
      fun loc hl => h loc (Or.inl ⟨info, hinfo, hl⟩)
    have htfp : getTabletFilePath fs' a = getTabletFilePath fs a := by
      unfold getTabletFilePath
      simp only [hinfo]
      by_cases hm : info.mode = MODE_FOREGROUND
      · rw [if_pos hm, if_pos hm]
      · rw [if_neg hm, if_neg hm]
        cases hl : info.location with
        | none => rfl
        | some loc =>
          simp only [fileExists, hloc loc hl]
    have hzt :
        (match a.zoteroPath with | some p => getFileModTime fs' p | none => 0) =
          (match a.zoteroPath with | some p => getFileModTime fs p | none => 0) := by
      cases hzp : a.zoteroPath with
      | none => rfl
      | some z => simp [getFileModTime, hz z hzp]
    unfold gatherInfo
    simp only [hinfo]
    rw [htfp]
    cases htp : getTabletFilePath fs a with
    | none => rfl
    | some tp =>
      have htpa : fs' tp = fs tp := by
        unfold getTabletFilePath at htp
        simp only [hinfo] at htp
        by_cases hm : info.mode = MODE_FOREGROUND
        · rw [if_pos hm] at htp
          exact hz tp htp
        · rw [if_neg hm] at htp
          cases hl : info.location with
          | none =>
            simp only [hl] at htp
            exact Option.noConfusion htp
          | some loc =>
            simp only [hl] at htp
            by_cases he : fileExists fs loc = true
            · rw [if_pos he] at htp
              cases htp
              exact hloc tp hl
            · rw [if_neg he] at htp
              cases htp
      have hmt : getFileModTime fs' tp = getFileModTime fs tp := by
        unfold getFileModTime
        rw [htpa]
      simp only [hmt, hzt]

theorem gatherEta (c : GatherData) (h : c.useTablet = false) :
    (⟨c.att, c.info, c.tabletPath, c.zoteroPath, c.tabletModified,
      c.zoteroModified, false⟩ : GatherData) = c := by
  cases c
  simp only [] at h ⊢
  rw [h]

theorem processFile_att (opo : Att → Path) (fs : FS) (g : GatherData)
    (pr : ProcResult) (ops : List FSOp)
    (h : processFile opo fs g = .ok (pr, ops)) : pr.att = g.att := by
  unfold processFile at h
  by_cases hm : g.info.mode = MODE_BACKGROUND
  · rw [if_pos hm] at h
    by_cases hmod : (g.tabletModified || g.useTablet) = true
    · rw [if_pos hmod] at h
      cases hz : g.zoteroPath with
      | none =>
        simp only [hz] at h
        exact Except.noConfusion h
      | some z =>
        simp only [hz] at h
        cases h
        rfl
    · rw [if_neg hmod] at h
      cases h
      rfl
  · rw [if_neg hm] at h
    cases hcl : collisionLoop (fileExists fs) (baseOf (opo g.att))
        (getFileExtension (opo g.att)) 1000 (opo g.att) 2 with
    | ok fp =>
      simp only [hcl] at h
      cases h
      rfl
    | error e =>
      simp only [hcl] at h
      exact Except.noConfusion h

theorem runApply_att (opo : Att → Path) :
    ∀ (l : List GatherData) (fs : FS) (pr : ProcResult),
      pr ∈ (runApply opo l fs).1 → ∃ g ∈ l, pr.att = g.att := by
  intro l
  induction l with
  | nil => intro fs pr h; simp [runApply] at h
  | cons g rest ih =>
    intro fs pr h
    unfold runApply at h
    cases hpf : processFile opo fs g with
    | ok po =>
      simp only [hpf] at h
      rcases List.mem_cons.1 h with heq | hmem
      · subst heq
        exact ⟨g, List.mem_cons_self g rest, processFile_att opo fs g po.1 po.2 hpf⟩
      · obtain ⟨g', hg', hatt⟩ := ih (applyOps fs po.2) pr hmem
        exact ⟨g', List.mem_cons_of_mem g hg', hatt⟩
    | error e =>
      simp only [hpf] at h
      obtain ⟨g', hg', hatt⟩ := ih fs pr h
      exact ⟨g', List.mem_cons_of_mem g hg', hatt⟩

theorem okResults_spec (tOn tMod : String) (fs : FS) (atts : List Att)
    (g' : GatherData)
    (h : g' ∈ ((atts.filter (isOnTablet tOn tMod)).map (gatherInfo fs)).filterMap
      (fun r => match r with | .ok g => some g | _ => none)) :
    g'.att ∈ atts.filter (isOnTablet tOn tMod) ∧ gatherInfo fs g'.att = .ok g' := by
  rw [List.mem_filterMap] at h
  obtain ⟨r, hr, hro⟩ := h
  rw [List.mem_map] at hr
  obtain ⟨b, hb, rfl⟩ := hr
  cases hg : gatherInfo fs b with
  | skipNoInfo =>
    simp only [hg] at hro
    exact Option.noConfusion hro
  | skipNoFile c =>
    simp only [hg] at hro
    exact Option.noConfusion hro
  | ok g2 =>
    simp only [hg] at hro
    cases hro
    have hatt : g'.att = b := gatherInfo_ok_att fs b g' hg
    rw [hatt]
    exact ⟨hb, hg⟩

theorem toCleanup_spec (tOn tMod : String) (fs : FS) (resolve : Att → Res)
    (atts : List Att) (b : Att)
    (h : b ∈ (planRetrieve tOn tMod fs resolve atts).toCleanup) :
    b ∈ atts.filter (isOnTablet tOn tMod) ∧ gatherInfo fs b = .skipNoFile b := by
  have hmem : b ∈ ((atts.filter (isOnTablet tOn tMod)).map (gatherInfo fs)).filterMap
      (fun r => match r with | .skipNoFile c => some c | _ => none) := h
  rw [List.mem_filterMap] at hmem
  obtain ⟨r, hr, hro⟩ := hmem
  rw [List.mem_map] at hr
  obtain ⟨c, hc, rfl⟩ := hr
  cases hg : gatherInfo fs c with
  | skipNoInfo =>
    simp only [hg] at hro
    exact Option.noConfusion hro
  | ok g2 =>
    simp only [hg] at hro
    exact Option.noConfusion hro
  | skipNoFile d =>
    simp only [hg] at hro
    cases hro
    have hd : b = c := gatherInfo_skipNoFile_att fs c b hg
    rw [hd] at hg ⊢
    exact ⟨hc, hg⟩

theorem toProcess_spec (tOn tMod : String) (fs : FS) (resolve : Att → Res)
    (atts : List Att) (g' : GatherData)
    (h : g' ∈ (planRetrieve tOn tMod fs resolve atts).toProcess) :
    g'.att ∈ atts.filter (isOnTablet tOn tMod)
    ∧ gatherInfo fs g'.att = .ok ⟨g'.att, g'.info, g'.tabletPath, g'.zoteroPath,
        g'.tabletModified, g'.zoteroModified, false⟩
    ∧ (hasConflict g' = true → resolve g'.att ≠ .cancel) := by
  have hmem : g' ∈
      ((((atts.filter (isOnTablet tOn tMod)).map (gatherInfo fs)).filterMap
        (fun r => match r with | .ok g => some g | _ => none)).filter
          (fun g => !hasConflict g)) ++
      (((((atts.filter (isOnTablet tOn tMod)).map (gatherInfo fs)).filterMap
        (fun r => match r with | .ok g => some g | _ => none)).filter
          (fun g => hasConflict g)).filterMap (resolveEntry resolve)) := h
  rcases List.mem_append.1 hmem with hnc | hres
  · have hok := (List.mem_filter.1 hnc).1
    have hspec := okResults_spec tOn tMod fs atts g' hok
    have hut : g'.useTablet = false := gatherInfo_ok_useTablet fs g'.att g' hspec.2
    refine ⟨hspec.1, by rw [gatherEta g' hut]; exact hspec.2, ?_⟩
    intro hcf
    have hncf := (List.mem_filter.1 hnc).2
    rw [hcf] at hncf
    cases hncf
  · rw [List.mem_filterMap] at hres
    obtain ⟨c, hc, hce⟩ := hres
    have hcok := (List.mem_filter.1 hc).1
    have hcspec := okResults_spec tOn tMod fs atts c hcok
    have hcut : c.useTablet = false := gatherInfo_ok_useTablet fs c.att c hcspec.2
    unfold resolveEntry at hce
    cases hr : resolve c.att with
    | tablet =>
      rw [hr] at hce
      cases hce
      refine ⟨hcspec.1, ?_, ?_⟩
      · rw [gatherEta c hcut]
        exact hcspec.2
      · intro _
        rw [hr]
        decide
    | zotero =>
      rw [hr] at hce
      cases hce
      refine ⟨hcspec.1, ?_, ?_⟩
      · rw [gatherEta c hcut]
        exact hcspec.2
      · intro _
        rw [hr]
        decide
    | cancel =>
      rw [hr] at hce
      exact Option.noConfusion hce

/-- **C8.**  When the user answers skip (cancel) for a conflicting file
during retrieve, that file is excluded from the apply and cleanup phases
and none of its state is altered: its gather entry is not processed, it is
not cleaned up, no apply result belongs to it, the pass-final attachment
update leaves it exactly as before (tags and sync record intact), the
pass-final filesystem agrees with the initial one on every path the pass
did not write, and — since the pass writes only paths of other files
(path-disjointness hypothesis) — the file still gathers with the same
conflict on the next attempt. -/
theorem retrieve_skip_preserves (tOn tMod : String) (opo : Att → Path)
    (fs : FS) (resolve : Att → Res) (atts : List Att) (a : Att) (g : GatherData)
    (hmemA : a ∈ atts) (hids : (atts.map Att.id).Nodup)
    (hg : gatherInfo fs a = .ok g) (hconf : hasConflict g = true)
    (hcancel : resolve a = .cancel) :
    g ∉ (planRetrieve tOn tMod fs resolve atts).toProcess
    ∧ a ∉ (getFromTablet tOn tMod opo fs resolve atts).toCleanupL
    ∧ (∀ pr ∈ (getFromTablet tOn tMod opo fs resolve atts).fileResults,
        pr.att.id ≠ a.id)
    ∧ updateAtt tOn tMod (getFromTablet tOn tMod opo fs resolve atts).fileResults
        (getFromTablet tOn tMod opo fs resolve atts).toCleanupL a = a
    ∧ (getFromTablet tOn tMod opo fs resolve atts).finalAtts =
        atts.map (updateAtt tOn tMod
          (getFromTablet tOn tMod opo fs resolve atts).fileResults
          (getFromTablet tOn tMod opo fs resolve atts).toCleanupL)
    ∧ (∀ p, p ∉ writtenPaths (getFromTablet tOn tMod opo fs resolve atts).ops →
        (getFromTablet tOn tMod opo fs resolve atts).fs p = fs p)
    ∧ ((∀ p, relevantPath a p →
          p ∉ writtenPaths (getFromTablet tOn tMod opo fs resolve atts).ops) →
        gatherInfo (getFromTablet tOn tMod opo fs resolve atts).fs a = .ok g) := by
  have hga : g.att = a := gatherInfo_ok_att fs a g hg
  have hidinj := List.inj_on_of_nodup_map hids
  have h1 : g ∉ (planRetrieve tOn tMod fs resolve atts).toProcess := by
    intro hgp
    have hspec := toProcess_spec tOn tMod fs resolve atts g hgp
    have hnc := hspec.2.2 hconf
    rw [hga] at hnc
    exact hnc hcancel
  have h2 : a ∉ (getFromTablet tOn tMod opo fs resolve atts).toCleanupL := by
    intro hcl
    have hspec := toCleanup_spec tOn tMod fs resolve atts a hcl
    rw [hg] at hspec
    exact GatherResult.noConfusion hspec.2
  have h3 : ∀ pr ∈ (getFromTablet tOn tMod opo fs resolve atts).fileResults,
      pr.att.id ≠ a.id := by
    intro pr hpr hid
    have hrun : pr ∈ (runApply opo
        (planRetrieve tOn tMod fs resolve atts).toProcess fs).1 := hpr
    obtain ⟨g', hg'mem, hatt⟩ := runApply_att opo _ fs pr hrun
    have hspec := toProcess_spec tOn tMod fs resolve atts g' hg'mem
    have hg'atts : g'.att ∈ atts := List.mem_of_mem_filter hspec.1
    have hg'a : g'.att = a := by
      apply hidinj hg'atts hmemA
      rw [← hatt]
      exact hid
    have hbase := hspec.2.1
    rw [hg'a, hg] at hbase
    have hflags : g'.tabletModified = g.tabletModified
        ∧ g'.zoteroModified = g.zoteroModified := by
      cases hbase
      exact ⟨rfl, rfl⟩
    have hcf' : hasConflict g' = true := by
      unfold hasConflict at hconf ⊢
      rw [hflags.1, hflags.2]
      exact hconf
    have := hspec.2.2 hcf'
    rw [hg'a] at this
    exact this hcancel
  have h4 : updateAtt tOn tMod
      (getFromTablet tOn tMod opo fs resolve atts).fileResults
      (getFromTablet tOn tMod opo fs resolve atts).toCleanupL a = a := by
    have hfind : (getFromTablet tOn tMod opo fs resolve atts).fileResults.find?
        (fun pr => pr.att.id == a.id) = none := by
      rw [List.find?_eq_none]
      intro pr hpr hc
      exact h3 pr hpr (by simpa using hc)
    have hany : (getFromTablet tOn tMod opo fs resolve atts).toCleanupL.any
        (fun b => b.id == a.id) = false := by
      rw [List.any_eq_false]
      intro b hb hbeq
      have hbid : b.id = a.id := by simpa using hbeq
      have hbatts : b ∈ atts := List.mem_of_mem_filter
        (toCleanup_spec tOn tMod fs resolve atts b hb).1
      have hba : b = a := hidinj hbatts hmemA hbid
      rw [hba] at hb
      exact h2 hb
    unfold updateAtt
    rw [hfind]
    show (if ((getFromTablet tOn tMod opo fs resolve atts).toCleanupL.any
        (fun b => b.id == a.id)) = true then clearAttState tOn tMod a else a) = a
    rw [hany]
    simp
  have hfs : (getFromTablet tOn tMod opo fs resolve atts).fs =
      applyOps fs (getFromTablet tOn tMod opo fs resolve atts).ops := by
    show applyOps (runApply opo (planRetrieve tOn tMod fs resolve atts).toProcess fs).2.2
        (((runApply opo (planRetrieve tOn tMod fs resolve atts).toProcess fs).1.map
          cleanupOps).flatten) =
      applyOps fs ((runApply opo (planRetrieve tOn tMod fs resolve atts).toProcess fs).2.1 ++
        ((runApply opo (planRetrieve tOn tMod fs resolve atts).toProcess fs).1.map
          cleanupOps).flatten)
    rw [runApply_fs, applyOps_append]
  have h6 : ∀ p, p ∉ writtenPaths (getFromTablet tOn tMod opo fs resolve atts).ops →
      (getFromTablet tOn tMod opo fs resolve atts).fs p = fs p := by
    intro p hp
    rw [hfs]
    exact applyOps_preserve p _ fs hp
  refine ⟨h1, h2, h3, h4, rfl, h6, ?_⟩
  intro hrel
  have hagree : ∀ p, relevantPath a p →
      (getFromTablet tOn tMod opo fs resolve atts).fs p = fs p :=
    fun p hp => h6 p (hrel p hp)
  rw [gatherInfo_congr fs (getFromTablet tOn tMod opo fs resolve atts).fs a hagree]
  exact hg

/-- Concrete skip scenario: one tracked background-mode attachment whose
both copies are newer than the record, answered cancel. -/
def attC8 : Att :=
  ⟨9, ["_tablet"], some ⟨some "/t/h.pdf".data, 5, 1⟩, some "/z/h.pdf".data⟩

def fsC8 : FS :=
  fun p => if p = "/t/h.pdf".data then some 9
    else if p = "/z/h.pdf".data then some 8 else none

def gC8 : GatherData :=
  ⟨attC8, ⟨some "/t/h.pdf".data, 5, 1⟩, "/t/h.pdf".data, some "/z/h.pdf".data,
    true, true, false⟩

/-- Witness for C8's theorem: the skipped attachment is returned untouched
and still gathers with the same conflict afterwards. -/
theorem retrieve_skip_preserves_witness :
    updateAtt "_tablet" "_tablet_modified"
      (getFromTablet "_tablet" "_tablet_modified" (fun _ => []) fsC8
        (fun _ => Res.cancel) [attC8]).fileResults
      (getFromTablet "_tablet" "_tablet_modified" (fun _ => []) fsC8
        (fun _ => Res.cancel) [attC8]).toCleanupL attC8 = attC8
    ∧ gatherInfo (getFromTablet "_tablet" "_tablet_modified" (fun _ => []) fsC8
        (fun _ => Res.cancel) [attC8]).fs attC8 = .ok gC8 := by
  have h := retrieve_skip_preserves "_tablet" "_tablet_modified" (fun _ => [])
    fsC8 (fun _ => Res.cancel) [attC8] attC8 gC8
    (by simp) (by simp) rfl rfl rfl
  refine ⟨h.2.2.2.1, h.2.2.2.2.2.2 ?_⟩
  intro p _ hmem
  rw [show writtenPaths (getFromTablet "_tablet" "_tablet_modified" (fun _ => [])
      fsC8 (fun _ => Res.cancel) [attC8]).ops = ([] : List Path) from rfl] at hmem
  cases hmem

end ZotTablet
